import Mathlib

/-!
Shallow embedding of the two pipelines of the `gen-ai-exercise` repository.

Pipeline A (`exercise1_tools_and_agents/main.py`): an essay is split into
paragraphs, each paragraph is sent to a language-model extraction chain
producing `CompanyInfo` records, and the records are inserted into a
PostgreSQL table `company_details`, which can be read back ordered by
founding date.

Pipeline B (`exercise2_rag_playground/src`): documents are chunked and added
to a Chroma vector collection, and an interactive loop answers questions.

The external collaborators (the language model, the network, the database
server, the vector store server) are modelled as explicit parameters: the
extraction chain is an oracle `List Char → Option (List CompanyInfo)`
(`none` models a model-call or parse failure for that paragraph), database
reachability is a boolean `connOk`, and the database itself is an explicit
state threaded through the operations.
-/

namespace GenAI

/-- Model of the Pydantic `CompanyInfo` record of
`exercise1_tools_and_agents/main.py`: company name, founding date as a raw
string, and the ordered list of founder names. -/
structure CompanyInfo where
  company_name : String
  founding_date : String
  founders : List String
  deriving DecidableEq, Repr

/-- A calendar date, the result of `datetime.strptime(s, "%Y-%m-%d").date()`. -/
structure Date where
  year : Nat
  month : Nat
  day : Nat
  deriving DecidableEq, Repr

/-- Comparison on dates as PostgreSQL's `DATE` ordering: lexicographic on
(year, month, day). -/
abbrev Date.le (a b : Date) : Prop :=
  a.year < b.year ∨
    (a.year = b.year ∧
      (a.month < b.month ∨ (a.month = b.month ∧ a.day ≤ b.day)))

instance (a b : Date) : Decidable (Date.le a b) := by
  unfold Date.le; infer_instance

theorem Date.le_total (a b : Date) : Date.le a b ∨ Date.le b a := by
  unfold Date.le; omega

theorem Date.le_trans {a b c : Date} (h₁ : Date.le a b) (h₂ : Date.le b c) :
    Date.le a c := by
  unfold Date.le at *; omega

theorem Date.not_le {a b : Date} (h : ¬ Date.le a b) : Date.le b a :=
  (Date.le_total a b).resolve_left h

/-- Splits a character list at every `'-'`, as Python's `"%Y-%m-%d"` format
fields are separated by literal dashes. -/
def splitOnDash : List Char → List (List Char)
  | [] => [[]]
  | '-' :: rest => [] :: splitOnDash rest
  | c :: rest =>
    match splitOnDash rest with
    | [] => [[c]]
    | seg :: segs => (c :: seg) :: segs

/-- Value of a list of decimal digit characters. -/
def digitsToNat (s : List Char) : Nat :=
  s.foldl (fun n c => n * 10 + (c.toNat - 48)) 0

/-- Parses a non-empty all-digit character list to a natural number. -/
def parseNat? (s : List Char) : Option Nat :=
  if s ≠ [] ∧ s.all Char.isDigit = true then some (digitsToNat s)
  else none

/-- Gregorian leap-year rule, as `datetime.date` validates the day field. -/
def isLeapYear (y : Nat) : Bool :=
  y % 4 == 0 && (y % 100 != 0 || y % 400 == 0)

/-- Number of days of month `m` of year `y`. -/
def daysInMonth (y m : Nat) : Nat :=
  if m = 2 then (if isLeapYear y then 29 else 28)
  else if m = 4 ∨ m = 6 ∨ m = 9 ∨ m = 11 then 30
  else 31

/-- Model of `datetime.strptime(s, "%Y-%m-%d").date()` at line 66 of
`exercise1_tools_and_agents/main.py`: the year field is exactly four digits,
month and day are one or two digits, the month is 1..12, the day is valid for
the month (leap years included), the year is at least 1, and the whole string
must be consumed.  A malformed string raises `ValueError` in Python, modelled
here as `none`. -/
def strptimeYMD (s : String) : Option Date :=
  match splitOnDash s.toList with
  | [ys, ms, ds] =>
    match parseNat? ys, parseNat? ms, parseNat? ds with
    | some y, some m, some d =>
      if ys.length = 4 ∧ 1 ≤ y ∧ ms.length ≤ 2 ∧ 1 ≤ m ∧ m ≤ 12 ∧
          ds.length ≤ 2 ∧ 1 ≤ d ∧ d ≤ daysInMonth y m
      then some ⟨y, m, d⟩ else none
    | _, _, _ => none
  | _ => none

/-- One row of the `company_details` table: `id SERIAL PRIMARY KEY,
company_name VARCHAR(255) NOT NULL, founded_in DATE NOT NULL,
founded_by TEXT[] NOT NULL`. -/
structure StoredRow where
  id : Nat
  company_name : String
  founded_in : Date
  founded_by : List String
  deriving DecidableEq, Repr

/-- State of the PostgreSQL database visible to this program: whether the
`company_details` table exists, the next `SERIAL` id, and the rows in
insertion order. -/
structure DB where
  schemaCreated : Bool
  nextId : Nat
  rows : List StoredRow
  deriving DecidableEq, Repr

/-- A database with no table yet, as on first run. -/
def emptyDB : DB := ⟨false, 1, []⟩

/-- Model of the `CREATE TABLE IF NOT EXISTS company_details (...)` statement
executed at lines 55-62 of `exercise1_tools_and_agents/main.py`: it creates
the table when absent and leaves rows untouched. -/
def ensure_schema (db : DB) : DB :=
  { db with schemaCreated := true }

/-- Model of one `INSERT INTO company_details (company_name, founded_in,
founded_by) VALUES ($1, $2, $3)` execution: appends one row carrying the
founders list verbatim and advances the serial id. -/
def DB.insertRow (db : DB) (name : String) (d : Date) (founders : List String) : DB :=
  { db with
    rows := db.rows ++ [⟨db.nextId, name, d, founders⟩],
    nextId := db.nextId + 1 }

/-- The `for company in companies` loop of `insert_companies_to_db`: each
record's date string is parsed and the row inserted; the first parse failure
raises, so the loop stops there (rows already inserted stay committed, since
each statement auto-commits) and the surrounding handler returns `False`. -/
def insertLoop (db : DB) : List CompanyInfo → DB × Bool
  | [] => (db, true)
  | c :: cs =>
    match strptimeYMD c.founding_date with
    | none => (db, false)
    | some d => insertLoop (db.insertRow c.company_name d c.founders) cs

/-- Model of `insert_companies_to_db` (lines 47-79): when the connection
succeeds it ensures the schema then runs the insert loop; any failure
(unreachable database modelled by `connOk = false`) is caught and reported as
`False` with the database unchanged. -/
def insert_companies_to_db (connOk : Bool) (db : DB) (companies : List CompanyInfo) :
    DB × Bool :=
  if connOk then insertLoop (ensure_schema db) companies else (db, false)

/-- Insertion of a row into a list sorted by `founded_in`. -/
def insertSorted (r : StoredRow) : List StoredRow → List StoredRow
  | [] => [r]
  | x :: xs =>
    if Date.le r.founded_in x.founded_in then r :: x :: xs
    else x :: insertSorted r xs

/-- Model of the relational engine's `ORDER BY founded_in`: a sort of the
stored rows by founding date. -/
def sortByFounded : List StoredRow → List StoredRow
  | [] => []
  | x :: xs => insertSorted x (sortByFounded xs)

/-- Model of `get_stored_companies` (lines 81-110): when the connection and
the `SELECT ... ORDER BY founded_in` both succeed it returns the rows sorted
by founding date; a connection failure or a failing query (for instance the
table not existing yet) is caught and yields the empty list. -/
def get_stored_companies (connOk : Bool) (db : DB) : List StoredRow :=
  if connOk && db.schemaCreated then sortByFounded db.rows else []

/-- Ordering of stored rows by their `founded_in` column. -/
abbrev RowLe (a b : StoredRow) : Prop := Date.le a.founded_in b.founded_in

/-- Content of a stored row with the store-assigned id stripped. -/
def rowContent (r : StoredRow) : String × Date × List String :=
  (r.company_name, r.founded_in, r.founded_by)

/-- The row content a successfully parsed record is stored as. -/
def convContent (c : CompanyInfo) : String × Date × List String :=
  (c.company_name, (strptimeYMD c.founding_date).getD ⟨1, 1, 1⟩, c.founders)

/-- Whether a record's date string parses, hence whether its insert succeeds. -/
def parseOk (c : CompanyInfo) : Bool := (strptimeYMD c.founding_date).isSome

/-- Characters stripped by Python's `str.strip()` (the ASCII whitespace set:
space, tab, newline, carriage return, vertical tab, form feed). -/
def isPyWS (c : Char) : Bool :=
  c == ' ' || c == '\t' || c == '\n' || c == '\r' || c == '\x0b' || c == '\x0c'

/-- Model of Python's `s.strip()`: drops leading and trailing whitespace. -/
def pyStrip (s : List Char) : List Char :=
  ((s.dropWhile isPyWS).reverse.dropWhile isPyWS).reverse

/-- Model of Python's `s.split('\n\n')`: greedy left-to-right split at every
occurrence of two consecutive newlines; adjacent separators yield empty
segments and the empty string yields one empty segment. -/
def pySplit2NL : List Char → List (List Char)
  | [] => [[]]
  | '\n' :: '\n' :: rest => [] :: pySplit2NL rest
  | c :: rest =>
    match pySplit2NL rest with
    | [] => [[c]]
    | seg :: segs => (c :: seg) :: segs

/-- The paragraph splitter at line 167 of `exercise1_tools_and_agents/main.py`:
`[p.strip() for p in essay_text.split('\n\n') if p.strip()]`. -/
def splitParagraphs (essay : List Char) : List (List Char) :=
  ((pySplit2NL essay).map pyStrip).filter (fun p => !p.isEmpty)

/-- The `for i, paragraph in enumerate(paragraphs)` loop of
`extract_and_store_companies` (lines 172-182): each paragraph is given once to
the extraction chain; a model-call or parse failure (`none`) is caught and
contributes no records, and the loop continues with the next paragraph.
Returns the accumulated records together with the trace of paragraphs actually
passed to the chain, in order. -/
def processParagraphs (extract : List Char → Option (List CompanyInfo)) :
    List (List Char) → List CompanyInfo × List (List Char)
  | [] => ([], [])
  | p :: ps =>
    let rest := processParagraphs extract ps
    match extract p with
    | some result => (result ++ rest.1, p :: rest.2)
    | none => (rest.1, p :: rest.2)

/-- Outcome of one `extract_and_store_companies` run: the final database
state, the returned list, and whether `insert_companies_to_db` was invoked. -/
structure PipelineResult where
  finalDb : DB
  returned : List StoredRow
  insertCalled : Bool
  deriving DecidableEq, Repr

/-- Model of `extract_and_store_companies` (lines 152-197): split the essay
into paragraphs, collect records per paragraph, and only when at least one
record was extracted call the store; on storage success re-read the stored
rows, otherwise return the empty list. -/
def extract_and_store_companies (extract : List Char → Option (List CompanyInfo))
    (connOk : Bool) (db : DB) (essay : List Char) : PipelineResult :=
  let all_companies := (processParagraphs extract (splitParagraphs essay)).1
  if all_companies.isEmpty then ⟨db, [], false⟩
  else
    let res := insert_companies_to_db connOk db all_companies
    if res.2 then ⟨res.1, get_stored_companies connOk res.1, true⟩
    else ⟨res.1, [], true⟩

/-- A loaded document of Pipeline B: page content and a metadata mapping. -/
structure Doc where
  content : List Char
  metadata : List (String × String)
  deriving DecidableEq, Repr

/-- Modelled from the spec: the within-document text splitting of
`RecursiveCharacterTextSplitter(chunk_size=1000, chunk_overlap=200)` is
third-party library code not part of this repository; following spec section
4.5, a document's text is cut into windows of at most 1000 characters where
each window after the first starts 200 characters before the previous window
ends. -/
def split_text (s : List Char) : List (List Char) :=
  if s.length ≤ 1000 then (if s.isEmpty then [] else [s])
  else s.take 1000 :: split_text (s.drop 800)
termination_by s.length
decreasing_by simp; omega

/-- Model of `chunk_documents` (lines 165-174 of
`exercise2_rag_playground/src/load_data_to_chroma.py`): each document is split
independently and every chunk of it carries the parent document's metadata
unmodified. -/
def chunk_documents (documents : List Doc) : List Doc :=
  documents.flatMap (fun d => (split_text d.content).map (fun t => ⟨t, d.metadata⟩))

/-- Overlap contract between two consecutive chunks of one document: the
earlier chunk is a full window of 1000 characters and its last 200 characters
are exactly the first 200 characters of the later chunk. -/
def ChunkOverlap (a b : List Char) : Prop :=
  a.length = 1000 ∧ a.drop 800 = b.take 200 ∧ 200 ≤ b.length

/-- State of the Chroma vector store: the collection name, the persistence
path, and the persisted chunk entries (one per embedded chunk). -/
structure VectorStore where
  collection_name : String
  persist_directory : String
  entries : List Doc
  deriving DecidableEq, Repr

/-- Model of `Chroma.from_documents(documents=chunks, ..., collection_name=
"rag_exercise", persist_directory="./chroma_data")` at lines 181-186: embeds
and adds every given chunk to the (possibly pre-existing) persisted
collection. -/
def Chroma_from_documents (existing : List Doc) (chunks : List Doc) : VectorStore :=
  ⟨"rag_exercise", "./chroma_data", existing ++ chunks⟩

/-- Model of `vector_store.add_documents(chunks)` at line 188: embeds and
appends every given chunk to the collection once more. -/
def VectorStore.add_documents (vs : VectorStore) (chunks : List Doc) : VectorStore :=
  { vs with entries := vs.entries ++ chunks }

/-- Model of `add_chunks_to_vector_db` (lines 176-190): constructs the
collection from the chunks and then explicitly adds the same chunks again. -/
def add_chunks_to_vector_db (existing : List Doc) (chunks : List Doc) : VectorStore :=
  (Chroma_from_documents existing chunks).add_documents chunks

/-- Model of Python's `s.lower()` on the inputs involved here. -/
def pyLower (s : List Char) : List Char := s.map Char.toLower

/-- How the interactive loop of `exercise2_rag_playground/src/main.py` can
terminate: by a quit sentinel (`break`, printing a goodbye message) or by
end of standard input (Python's `input()` raising `EOFError`, which is not
caught inside the loop). Both are terminal: the loop never resumes. -/
inductive LoopExit where
  | quitCmd : LoopExit
  | endOfInput : LoopExit
  deriving DecidableEq, Repr

/-- Model of `run_interactive_mode` (lines 79-100 of
`exercise2_rag_playground/src/main.py`) driven by a finite list of input
lines: each line is stripped; if its lowercase form is `quit` or `q` the loop
exits; if it is blank the loop re-prompts without calling the RAG chain;
otherwise the chain is invoked on the stripped question (its failures are
caught) and the loop continues.  Returns the trace of questions passed to the
chain and the way the loop ended. -/
def run_interactive_mode (ans : List Char → Option (List Char)) :
    List (List Char) → List (List Char) × LoopExit
  | [] => ([], LoopExit.endOfInput)
  | q :: rest =>
    let question := pyStrip q
    if pyLower question = "quit".toList ∨ pyLower question = "q".toList then
      ([], LoopExit.quitCmd)
    else if question.isEmpty then run_interactive_mode ans rest
    else
      let r := run_interactive_mode ans rest
      (question :: r.1, r.2)

/-- Concrete record with a well-formed date, used to instantiate theorems. -/
def cGood : CompanyInfo := ⟨"Good Corp", "1999-01-02", ["Ada", "Bob"]⟩

/-- Concrete record with an earlier well-formed date. -/
def cEarly : CompanyInfo := ⟨"Early Corp", "1886-05-08", ["Cay"]⟩

/-- Concrete record whose date string `strptime` rejects. -/
def cBad : CompanyInfo := ⟨"Bad Corp", "August 2008", ["Dee"]⟩

/-- Concrete extraction oracle that fails on the paragraph `x` and returns
one record otherwise. -/
def exOracle (p : List Char) : Option (List CompanyInfo) :=
  if p = ['x'] then none else some [cGood]

/-- Concrete database with the table created and two rows out of date order. -/
def dbTwo : DB :=
  ⟨true, 3, [⟨1, "Good Corp", ⟨1999, 1, 2⟩, ["Ada", "Bob"]⟩,
             ⟨2, "Early Corp", ⟨1886, 5, 8⟩, ["Cay"]⟩]⟩

/-- Concrete document whose content splits into two overlapping chunks. -/
def docLong : Doc :=
  ⟨List.replicate 1200 'a', [("title", "long")]⟩

/-- Concrete short document producing a single chunk. -/
def docShort : Doc :=
  ⟨['h', 'i'], [("title", "short")]⟩

/-- Concrete answering oracle echoing the question, used to instantiate the
interactive-loop theorem. -/
def ansEcho (q : List Char) : Option (List Char) := some q

/-! ## Lemmas about the sort performed by `ORDER BY founded_in` -/

theorem perm_insertSorted (r : StoredRow) (l : List StoredRow) :
    (insertSorted r l).Perm (r :: l) := by
  induction l with
  | nil => rfl
  | cons x xs ih =>
    rw [insertSorted]
    by_cases h : Date.le r.founded_in x.founded_in
    · simp [h]
    · simp only [h, if_false]
      exact (ih.cons x).trans (List.Perm.swap r x xs)

theorem perm_sortByFounded (l : List StoredRow) : (sortByFounded l).Perm l := by
  induction l with
  | nil => rfl
  | cons x xs ih =>
    exact (perm_insertSorted x (sortByFounded xs)).trans (ih.cons x)

theorem sorted_insertSorted (r : StoredRow) {l : List StoredRow}
    (h : l.Pairwise RowLe) : (insertSorted r l).Pairwise RowLe := by
  induction l with
  | nil => simp [insertSorted]
  | cons x xs ih =>
    obtain ⟨hx, hxs⟩ := List.pairwise_cons.mp h
    rw [insertSorted]
    by_cases hle : Date.le r.founded_in x.founded_in
    · simp only [hle, if_true]
      refine List.pairwise_cons.mpr ⟨?_, h⟩
      intro b hb
      rcases List.mem_cons.mp hb with rfl | hbxs
      · exact hle
      · exact Date.le_trans hle (hx b hbxs)
    · simp only [hle, if_false]
      refine List.pairwise_cons.mpr ⟨?_, ih hxs⟩
      intro b hb
      rcases List.mem_cons.mp ((perm_insertSorted r xs).subset hb) with rfl | hbxs
      · exact Date.not_le hle
      · exact hx b hbxs

theorem sorted_sortByFounded (l : List StoredRow) :
    (sortByFounded l).Pairwise RowLe := by
  induction l with
  | nil => simp [sortByFounded]
  | cons x xs ih => exact sorted_insertSorted x ih

/-! ## Behaviour of the insert loop -/

theorem insertLoop_spec (cs : List CompanyInfo) (db : DB) :
    (insertLoop db cs).1.schemaCreated = db.schemaCreated ∧
    ((insertLoop db cs).2 = true ↔ ∀ c ∈ cs, parseOk c = true) ∧
    (insertLoop db cs).1.rows.map rowContent =
      db.rows.map rowContent ++ (cs.takeWhile parseOk).map convContent := by
  induction cs generalizing db with
  | nil => simp [insertLoop]
  | cons c cs ih =>
    cases hp : strptimeYMD c.founding_date with
    | none =>
      have hpo : parseOk c = false := by simp [parseOk, hp]
      refine ⟨by simp [insertLoop, hp], ?_, ?_⟩
      · simp only [insertLoop, hp, Bool.false_eq_true, false_iff]
        intro hall
        have h1 := hall c (List.mem_cons_self c cs)
        simp [hpo] at h1
      · simp [insertLoop, hp, List.takeWhile_cons, hpo]
    | some d =>
      have hpo : parseOk c = true := by simp [parseOk, hp]
      obtain ⟨h1, h2, h3⟩ := ih (db.insertRow c.company_name d c.founders)
      refine ⟨?_, ?_, ?_⟩
      · simpa [insertLoop, hp, DB.insertRow] using h1
      · simp only [insertLoop, hp]
        rw [h2]
        simp [hpo]
      · simp only [insertLoop, hp]
        rw [h3]
        simp [DB.insertRow, rowContent, convContent, List.takeWhile_cons, hpo, hp]

theorem takeWhile_parseOk_of_all {cs : List CompanyInfo}
    (h : ∀ c ∈ cs, parseOk c = true) : cs.takeWhile parseOk = cs := by
  induction cs with
  | nil => rfl
  | cons c cs ih =>
    rw [List.takeWhile_cons, h c (List.mem_cons_self c cs),
      ih (fun x hx => h x (List.mem_cons_of_mem c hx))]
    simp

/-! ## Claim theorems for the Company Store -/

/-- C7: calling the schema-ensure operation (the `CREATE TABLE IF NOT EXISTS`
statement of `insert_companies_to_db`) any number of times in succession never
fails (it is a total function), repeated application equals a single
application (no structure is duplicated), and it alters neither the stored
rows of `company_details` nor the id counter. -/
theorem C7_schema_ensure_idempotent (n : Nat) (db : DB) :
    ensure_schema^[n] (ensure_schema db) = ensure_schema db ∧
    (ensure_schema db).rows = db.rows ∧
    (ensure_schema db).nextId = db.nextId :=
  ⟨Function.iterate_fixed rfl n, rfl, rfl⟩

/-- C10: `add_chunks_to_vector_db` persists every chunk twice: the collection
construction `Chroma.from_documents` embeds and stores the whole chunk list
once and the following `add_documents` call stores the same list again, so
after one ingestion run the `rag_exercise` collection holds two copies of
every input chunk on top of whatever it already held. -/
theorem C10_double_ingestion (existing chunks : List Doc) (c : Doc) :
    (add_chunks_to_vector_db existing chunks).entries = existing ++ chunks ++ chunks ∧
    (add_chunks_to_vector_db existing chunks).entries.count c =
      existing.count c + 2 * chunks.count c ∧
    (add_chunks_to_vector_db existing chunks).collection_name = "rag_exercise" := by
  refine ⟨rfl, ?_, rfl⟩
  show ((existing ++ chunks) ++ chunks).count c = existing.count c + 2 * chunks.count c
  rw [List.count_append, List.count_append]
  omega

/-- C3: `get_stored_companies` never raises (it is a total function): when the
connection and the query succeed it returns all stored rows ordered by
`founded_in` ascending, and when the relation is empty, the database is
unreachable, or the query fails (for instance the table does not exist yet) it
returns the empty list instead of an error. -/
theorem C3_list_all_semantics (connOk : Bool) (db : DB) :
    (connOk = false → get_stored_companies connOk db = []) ∧
    (db.schemaCreated = false → get_stored_companies connOk db = []) ∧
    (db.rows = [] → get_stored_companies connOk db = []) ∧
    (connOk = true → db.schemaCreated = true →
      (get_stored_companies connOk db).Pairwise RowLe ∧
      (get_stored_companies connOk db).Perm db.rows) := by
  refine ⟨?_, ?_, ?_, ?_⟩
  · intro h; simp [get_stored_companies, h]
  · intro h; simp [get_stored_companies, h]
  · intro h
    unfold get_stored_companies
    split <;> simp [h, sortByFounded]
  · intro h1 h2
    have hg : get_stored_companies connOk db = sortByFounded db.rows := by
      unfold get_stored_companies
      rw [if_pos (by simp [h1, h2])]
    rw [hg]
    exact ⟨sorted_sortByFounded db.rows, perm_sortByFounded db.rows⟩

/-- Witness for C3: concrete evaluations of the unreachable, table-missing,
empty-relation and two-row cases. -/
theorem C3_witness :
    get_stored_companies false dbTwo = [] ∧
    get_stored_companies true emptyDB = [] ∧
    get_stored_companies true ⟨true, 1, []⟩ = [] ∧
    (get_stored_companies true dbTwo).Pairwise RowLe ∧
    (get_stored_companies true dbTwo).Perm dbTwo.rows := by
  have h1 := C3_list_all_semantics false dbTwo
  have h2 := C3_list_all_semantics true emptyDB
  have h3 := C3_list_all_semantics true (⟨true, 1, []⟩ : DB)
  have h4 := C3_list_all_semantics true dbTwo
  exact ⟨h1.1 rfl, h2.2.1 rfl, h3.2.2.1 rfl,
    (h4.2.2.2 rfl rfl).1, (h4.2.2.2 rfl rfl).2⟩

theorem insert_companies_spec (connOk : Bool) (db : DB) (cs : List CompanyInfo) :
    (connOk = false → insert_companies_to_db connOk db cs = (db, false)) ∧
    (connOk = true →
      (insert_companies_to_db connOk db cs).1.schemaCreated = true ∧
      ((insert_companies_to_db connOk db cs).2 = true ↔ ∀ c ∈ cs, parseOk c = true) ∧
      (insert_companies_to_db connOk db cs).1.rows.map rowContent =
        db.rows.map rowContent ++ (cs.takeWhile parseOk).map convContent ∧
      ((insert_companies_to_db connOk db cs).2 = true →
        (insert_companies_to_db connOk db cs).1.rows.map rowContent =
          db.rows.map rowContent ++ cs.map convContent)) := by
  constructor
  · intro h; simp [insert_companies_to_db, h]
  · intro h
    subst h
    have hspec := insertLoop_spec cs (ensure_schema db)
    have hins : insert_companies_to_db true db cs = insertLoop (ensure_schema db) cs := by
      simp [insert_companies_to_db]
    rw [hins]
    refine ⟨?_, hspec.2.1, hspec.2.2, ?_⟩
    · rw [hspec.1]; rfl
    · intro hok
      have hall := hspec.2.1.mp hok
      rw [hspec.2.2, takeWhile_parseOk_of_all hall]
      rfl

/-- C2: `insert_companies_to_db` always returns a boolean result rather than
raising (it is a total function).  When the database is unreachable it reports
failure with the state unchanged.  Otherwise it ensures the schema and inserts
each record as one row whose `founded_by` column is the record's founders list
verbatim, in record order; the batch succeeds exactly when every record's date
string parses, and a malformed date string aborts the batch at that record
(rows inserted before it stay, nothing after it is inserted) with result
`false`. -/
theorem C2_insert_semantics (connOk : Bool) (db : DB) (cs : List CompanyInfo) :
    (connOk = false → insert_companies_to_db connOk db cs = (db, false)) ∧
    (connOk = true →
      (insert_companies_to_db connOk db cs).1.schemaCreated = true ∧
      ((insert_companies_to_db connOk db cs).2 = true ↔ ∀ c ∈ cs, parseOk c = true) ∧
      (insert_companies_to_db connOk db cs).1.rows.map rowContent =
        db.rows.map rowContent ++ (cs.takeWhile parseOk).map convContent ∧
      ((insert_companies_to_db connOk db cs).2 = true →
        (insert_companies_to_db connOk db cs).1.rows.map rowContent =
          db.rows.map rowContent ++ cs.map convContent)) :=
  insert_companies_spec connOk db cs

/-- Witness for C2: a dead connection reports failure, a malformed date in the
middle of a batch aborts it there, and an all-valid batch inserts every
record. -/
theorem C2_witness :
    insert_companies_to_db false emptyDB [cGood] = (emptyDB, false) ∧
    (insert_companies_to_db true emptyDB [cGood, cBad, cEarly]).1.rows.map rowContent =
      emptyDB.rows.map rowContent ++
        ([cGood, cBad, cEarly].takeWhile parseOk).map convContent ∧
    (insert_companies_to_db true emptyDB [cGood, cEarly]).1.rows.map rowContent =
      emptyDB.rows.map rowContent ++ [cGood, cEarly].map convContent := by
  have h1 := C2_insert_semantics false emptyDB [cGood]
  have h2 := C2_insert_semantics true emptyDB [cGood, cBad, cEarly]
  have h3 := C2_insert_semantics true emptyDB [cGood, cEarly]
  exact ⟨h1.1 rfl, (h2.2 rfl).2.2.1, (h3.2 rfl).2.2.2 (by decide)⟩

/-- C1: round-trip of the company store: inserting a sequence of records into
an empty store and listing all rows returns a sequence ordered by `founded_in`
ascending whose contents (store-assigned ids stripped) are exactly the
inserted records' contents; for any two insertion orders of the same records
both listings are sorted and carry the same contents up to permutation. -/
theorem C1_roundtrip_sorted (cs cs' : List CompanyInfo)
    (hperm : cs.Perm cs')
    (hok : (insert_companies_to_db true emptyDB cs).2 = true) :
    (get_stored_companies true (insert_companies_to_db true emptyDB cs).1).Pairwise RowLe ∧
    (get_stored_companies true (insert_companies_to_db true emptyDB cs').1).Pairwise RowLe ∧
    ((get_stored_companies true (insert_companies_to_db true emptyDB cs).1).map
      rowContent).Perm (cs.map convContent) ∧
    ((get_stored_companies true (insert_companies_to_db true emptyDB cs').1).map
      rowContent).Perm (cs'.map convContent) ∧
    ((get_stored_companies true (insert_companies_to_db true emptyDB cs).1).map
      rowContent).Perm
      ((get_stored_companies true (insert_companies_to_db true emptyDB cs').1).map
        rowContent) := by
  have h := insert_companies_spec true emptyDB cs
  have h' := insert_companies_spec true emptyDB cs'
  have hall : ∀ c ∈ cs, parseOk c = true := (h.2 rfl).2.1.mp hok
  have hall' : ∀ c ∈ cs', parseOk c = true := fun c hc => hall c (hperm.mem_iff.mpr hc)
  have hok' : (insert_companies_to_db true emptyDB cs').2 = true := (h'.2 rfl).2.1.mpr hall'
  have hmap : (insert_companies_to_db true emptyDB cs).1.rows.map rowContent =
      cs.map convContent := by
    have := (h.2 rfl).2.2.2 hok
    simpa [emptyDB] using this
  have hmap' : (insert_companies_to_db true emptyDB cs').1.rows.map rowContent =
      cs'.map convContent := by
    have := (h'.2 rfl).2.2.2 hok'
    simpa [emptyDB] using this
  have hg : get_stored_companies true (insert_companies_to_db true emptyDB cs).1 =
      sortByFounded (insert_companies_to_db true emptyDB cs).1.rows := by
    unfold get_stored_companies
    rw [if_pos (by simp [(h.2 rfl).1])]
  have hg' : get_stored_companies true (insert_companies_to_db true emptyDB cs').1 =
      sortByFounded (insert_companies_to_db true emptyDB cs').1.rows := by
    unfold get_stored_companies
    rw [if_pos (by simp [(h'.2 rfl).1])]
  have hp3 : ((get_stored_companies true (insert_companies_to_db true emptyDB cs).1).map
      rowContent).Perm (cs.map convContent) := by
    rw [hg, ← hmap]
    exact (perm_sortByFounded _).map rowContent
  have hp4 : ((get_stored_companies true (insert_companies_to_db true emptyDB cs').1).map
      rowContent).Perm (cs'.map convContent) := by
    rw [hg', ← hmap']
    exact (perm_sortByFounded _).map rowContent
  refine ⟨?_, ?_, hp3, hp4, ?_⟩
  · rw [hg]; exact sorted_sortByFounded _
  · rw [hg']; exact sorted_sortByFounded _
  · exact hp3.trans ((hperm.map convContent).trans hp4.symm)

/-- Witness for C1: the two-record batch inserted in both orders; the listing
of the first order is sorted and is a permutation of the converted records. -/
theorem C1_witness :
    (get_stored_companies true
      (insert_companies_to_db true emptyDB [cGood, cEarly]).1).Pairwise RowLe ∧
    ((get_stored_companies true
      (insert_companies_to_db true emptyDB [cGood, cEarly]).1).map rowContent).Perm
      ([cGood, cEarly].map convContent) := by
  have h := C1_roundtrip_sorted [cGood, cEarly] [cEarly, cGood]
    (List.Perm.swap cEarly cGood []) (by decide)
  exact ⟨h.1, h.2.2.1⟩

/-! ## Lemmas about the paragraph splitter -/

theorem isPyWS_of_head?_dropWhile {l : List Char} {c : Char}
    (h : (l.dropWhile isPyWS).head? = some c) : isPyWS c = false := by
  have hne : l.dropWhile isPyWS ≠ [] := by
    intro hnil; rw [hnil] at h; exact Option.noConfusion h
  have hh := List.head?_eq_head hne
  rw [hh] at h
  have hc : (l.dropWhile isPyWS).head hne = c := Option.some.inj h
  rw [← hc]
  exact List.head_dropWhile_not isPyWS l hne

theorem getLast?_dropWhile_of_ne_nil {p : Char → Bool} :
    ∀ l : List Char, l.dropWhile p ≠ [] → (l.dropWhile p).getLast? = l.getLast? := by
  intro l
  induction l with
  | nil => intro h; exact absurd rfl h
  | cons x xs ih =>
    intro hne
    rw [List.dropWhile_cons] at hne ⊢
    by_cases hx : p x = true
    · rw [if_pos hx] at hne ⊢
      have hxs : xs ≠ [] := by
        intro hnil
        rw [hnil] at hne
        exact hne rfl
      rw [ih hne]
      cases xs with
      | nil => exact absurd rfl hxs
      | cons y ys => exact (List.getLast?_cons_cons).symm
    · rw [if_neg hx]

theorem pyStrip_head {q : List Char} {c : Char}
    (h : (pyStrip q).head? = some c) : isPyWS c = false := by
  unfold pyStrip at h
  rw [List.head?_reverse] at h
  have hne : (q.dropWhile isPyWS).reverse.dropWhile isPyWS ≠ [] := by
    intro hnil; rw [hnil] at h; exact Option.noConfusion h
  rw [getLast?_dropWhile_of_ne_nil _ hne, List.getLast?_reverse] at h
  exact isPyWS_of_head?_dropWhile h

theorem pyStrip_last {q : List Char} {c : Char}
    (h : (pyStrip q).getLast? = some c) : isPyWS c = false := by
  unfold pyStrip at h
  rw [List.getLast?_reverse] at h
  exact isPyWS_of_head?_dropWhile h

theorem pySplit2NL_cons_of_not_sep (c : Char) (rest : List Char)
    (hne : ∀ (r : List Char), c = '\n' → rest = '\n' :: r → False) :
    pySplit2NL (c :: rest) =
      match pySplit2NL rest with
      | [] => [[c]]
      | seg :: segs => (c :: seg) :: segs := by
  rw [pySplit2NL.eq_def]
  split
  · rename_i heq
    simp at heq
  · rename_i rest1 heq
    injection heq with h1 h2
    exact (hne rest1 h1 h2).elim
  · rename_i c' rest' hguard heq
    injection heq with h1 h2
    subst h1
    subst h2
    rfl

theorem pySplit2NL_flatten_sublist : ∀ s : List Char,
    (pySplit2NL s).flatten.Sublist s := by
  intro s
  induction s using pySplit2NL.induct with
  | case1 => simp [pySplit2NL]
  | case2 rest ih =>
    rw [pySplit2NL]
    simp only [List.flatten_cons, List.nil_append]
    exact (ih.trans (List.sublist_cons_self '\n' rest)).trans
      (List.sublist_cons_self '\n' ('\n' :: rest))
  | case3 c rest hne hnil ih =>
    rw [pySplit2NL_cons_of_not_sep c rest hne, hnil]
    simp only [List.flatten_cons, List.flatten_nil, List.append_nil]
    exact (List.nil_sublist rest).cons₂ c
  | case4 c rest hne seg segs hrec ih =>
    rw [pySplit2NL_cons_of_not_sep c rest hne, hrec]
    rw [hrec] at ih
    simpa using ih.cons₂ c

theorem pyStrip_eq_nil_of_all_ws {s : List Char}
    (h : ∀ c ∈ s, isPyWS c = true) : pyStrip s = [] := by
  unfold pyStrip
  rw [List.dropWhile_eq_nil_iff.mpr h]
  rfl

theorem splitParagraphs_of_all_ws {essay : List Char}
    (h : ∀ c ∈ essay, isPyWS c = true) : splitParagraphs essay = [] := by
  unfold splitParagraphs
  rw [List.filter_eq_nil_iff]
  intro p hp
  obtain ⟨q, hq, rfl⟩ := List.mem_map.mp hp
  have hall : ∀ c ∈ q, isPyWS c = true := fun c hc =>
    h c ((pySplit2NL_flatten_sublist essay).subset (List.mem_flatten.mpr ⟨q, hq, hc⟩))
  simp [pyStrip_eq_nil_of_all_ws hall]

/-! ## Claim theorems for the paragraph splitter and the extraction loop -/

/-- C4: the paragraph splitter
`[p.strip() for p in essay_text.split('\n\n') if p.strip()]` splits the essay
at blank-line boundaries, trims every segment and drops the empty ones: every
output string is non-empty and carries no leading or trailing whitespace, the
output is an order-preserving selection of the trimmed segments, and the empty
input yields the empty sequence (the function is total, so there is no error
condition). -/
theorem C4_paragraph_splitter (essay : List Char) :
    (∀ p ∈ splitParagraphs essay,
      p ≠ [] ∧ (∀ c, p.head? = some c → isPyWS c = false) ∧
        (∀ c, p.getLast? = some c → isPyWS c = false)) ∧
    (splitParagraphs essay).Sublist ((pySplit2NL essay).map pyStrip) ∧
    splitParagraphs ([] : List Char) = [] := by
  refine ⟨?_, List.filter_sublist _, by decide⟩
  intro p hp
  have hmem := List.mem_filter.mp hp
  have hne : p ≠ [] := by simpa using hmem.2
  obtain ⟨q, hq, rfl⟩ := List.mem_map.mp hmem.1
  exact ⟨hne, fun c hc => pyStrip_head hc, fun c hc => pyStrip_last hc⟩

/-- Witness for C4: the essay `"a \n\n b"` splits into the trimmed non-empty
paragraphs `a` and `b`. -/
theorem C4_witness :
    (['a'] ≠ ([] : List Char)) ∧ isPyWS 'a' = false ∧ isPyWS 'b' = false := by
  have h := (C4_paragraph_splitter ('a' :: ' ' :: '\n' :: '\n' :: ' ' :: 'b' :: [])).1
  have h1 := h ['a'] (by decide)
  have h2 := h ['b'] (by decide)
  exact ⟨h1.1, h1.2.1 'a' rfl, h2.2.2 'b' rfl⟩

/-- C5: for an essay that is empty or whitespace-only the splitter yields zero
paragraphs, the extraction loop therefore collects zero records, and
`extract_and_store_companies` never invokes `insert_companies_to_db` (the
`if all_companies:` guard fails) and returns the empty list with the database
untouched. -/
theorem C5_empty_essay_no_insert (extract : List Char → Option (List CompanyInfo))
    (connOk : Bool) (db : DB) (essay : List Char)
    (h : ∀ c ∈ essay, isPyWS c = true) :
    (processParagraphs extract (splitParagraphs essay)).1 = [] ∧
    extract_and_store_companies extract connOk db essay = ⟨db, [], false⟩ := by
  have hs := splitParagraphs_of_all_ws h
  constructor
  · rw [hs]
    rfl
  · unfold extract_and_store_companies
    rw [hs]
    rfl

/-- Witness for C5: the whitespace-only essay `" \n\n\t"` produces no records
and no insert call. -/
theorem C5_witness :
    (processParagraphs exOracle (splitParagraphs [' ', '\n', '\n', '\t'])).1 = [] ∧
    extract_and_store_companies exOracle true emptyDB [' ', '\n', '\n', '\t'] =
      ⟨emptyDB, [], false⟩ :=
  C5_empty_essay_no_insert exOracle true emptyDB [' ', '\n', '\n', '\t'] (by decide)

theorem processParagraphs_trace (extract : List Char → Option (List CompanyInfo))
    (paras : List (List Char)) : (processParagraphs extract paras).2 = paras := by
  induction paras with
  | nil => rfl
  | cons p ps ih =>
    cases h : extract p <;> simp [processParagraphs, h, ih]

theorem processParagraphs_append (extract : List Char → Option (List CompanyInfo))
    (l1 l2 : List (List Char)) :
    (processParagraphs extract (l1 ++ l2)).1 =
      (processParagraphs extract l1).1 ++ (processParagraphs extract l2).1 := by
  induction l1 with
  | nil => rfl
  | cons p ps ih =>
    cases h : extract p <;> simp [processParagraphs, h, ih]

/-- C6: a model-call or parse failure on one paragraph is caught and that
paragraph contributes zero records while every other paragraph's records are
unaffected; the trace shows each paragraph is passed to the extraction chain
exactly once, in input order, with no retry and no early stop. -/
theorem C6_paragraph_failure_isolated (extract : List Char → Option (List CompanyInfo))
    (l1 : List (List Char)) (p : List Char) (l2 : List (List Char))
    (hfail : extract p = none) :
    (processParagraphs extract (l1 ++ p :: l2)).1 =
      (processParagraphs extract l1).1 ++ (processParagraphs extract l2).1 ∧
    (processParagraphs extract (l1 ++ p :: l2)).2 = l1 ++ p :: l2 := by
  refine ⟨?_, processParagraphs_trace extract _⟩
  rw [processParagraphs_append]
  have hmid : (processParagraphs extract (p :: l2)).1 = (processParagraphs extract l2).1 := by
    simp [processParagraphs, hfail]
  rw [hmid]

/-- Witness for C6: the oracle failing on the middle paragraph `x` leaves the
records of the surrounding paragraphs intact and invokes the oracle on all
three paragraphs once each. -/
theorem C6_witness :
    (processParagraphs exOracle ([[ 'a' ]] ++ ['x'] :: [['b']])).1 =
      (processParagraphs exOracle [['a']]).1 ++ (processParagraphs exOracle [['b']]).1 ∧
    (processParagraphs exOracle ([[ 'a' ]] ++ ['x'] :: [['b']])).2 =
      [['a']] ++ ['x'] :: [['b']] :=
  C6_paragraph_failure_isolated exOracle [['a']] ['x'] [['b']] (by decide)

/-! ## Lemmas about the chunker -/

theorem split_text_length_le : ∀ s : List Char, ∀ t ∈ split_text s, t.length ≤ 1000 := by
  intro s
  induction s using split_text.induct with
  | case1 x h1 h2 =>
    intro t ht
    rw [split_text, if_pos h1, if_pos h2] at ht
    exact absurd ht (List.not_mem_nil t)
  | case2 x h1 h2 =>
    intro t ht
    rw [split_text, if_pos h1, if_neg h2] at ht
    rw [List.mem_singleton.mp ht]
    exact h1
  | case3 x h1 ih =>
    intro t ht
    rw [split_text, if_neg h1] at ht
    rcases List.mem_cons.mp ht with rfl | hrest
    · simp
    · exact ih t hrest

theorem split_text_slice : ∀ s : List Char, ∀ t ∈ split_text s,
    ∃ pre suf, pre ++ t ++ suf = s := by
  intro s
  induction s using split_text.induct with
  | case1 x h1 h2 =>
    intro t ht
    rw [split_text, if_pos h1, if_pos h2] at ht
    exact absurd ht (List.not_mem_nil t)
  | case2 x h1 h2 =>
    intro t ht
    rw [split_text, if_pos h1, if_neg h2] at ht
    rw [List.mem_singleton.mp ht]
    exact ⟨[], [], by simp⟩
  | case3 x h1 ih =>
    intro t ht
    rw [split_text, if_neg h1] at ht
    rcases List.mem_cons.mp ht with rfl | hrest
    · exact ⟨[], x.drop 1000, by simp⟩
    · obtain ⟨pre, suf, hps⟩ := ih t hrest
      refine ⟨x.take 800 ++ pre, suf, ?_⟩
      simp only [List.append_assoc] at hps ⊢
      rw [hps, List.take_append_drop]

theorem head?_split_text_take_200 {y : List Char} (hy : 200 ≤ y.length) :
    ∀ b, (split_text y).head? = some b → b.take 200 = y.take 200 ∧ 200 ≤ b.length := by
  intro b hb
  by_cases h1 : y.length ≤ 1000
  · have h2 : y.isEmpty = false := by
      cases y with
      | nil => simp at hy
      | cons c cs => rfl
    rw [split_text, if_pos h1, h2] at hb
    simp only [Bool.false_eq_true, if_false, List.head?_cons] at hb
    rw [← Option.some.inj hb]
    exact ⟨rfl, hy⟩
  · rw [split_text, if_neg h1] at hb
    simp only [List.head?_cons] at hb
    rw [← Option.some.inj hb]
    constructor
    · rw [List.take_take]
      norm_num
    · simp
      omega

theorem split_text_chain : ∀ s : List Char,
    List.Chain' ChunkOverlap (split_text s) := by
  intro s
  induction s using split_text.induct with
  | case1 x h1 h2 =>
    rw [split_text, if_pos h1, if_pos h2]
    exact List.chain'_nil
  | case2 x h1 h2 =>
    rw [split_text, if_pos h1, if_neg h2]
    exact List.chain'_singleton x
  | case3 x h1 ih =>
    rw [split_text, if_neg h1]
    refine List.chain'_cons'.mpr ⟨?_, ih⟩
    intro b hb
    have hy : 200 ≤ (x.drop 800).length := by
      simp
      omega
    obtain ⟨hbt, hbl⟩ := head?_split_text_take_200 hy b hb
    refine ⟨?_, ?_, hbl⟩
    · simp
      omega
    · rw [List.drop_take, hbt]

/-! ## Claim theorems for Pipeline B -/

/-- C8: every chunk produced by `chunk_documents` is at most 1000 characters
long, is a contiguous slice of exactly one source document whose metadata it
inherits unmodified (chunks never span two documents), and within one document
every non-final chunk is a full 1000-character window whose last 200
characters are exactly the first 200 characters of the next chunk, so
consecutive chunks overlap by exactly 200 characters. -/
theorem C8_chunker (documents : List Doc) :
    (∀ ch ∈ chunk_documents documents,
      ch.content.length ≤ 1000 ∧
      ∃ d ∈ documents, ch.metadata = d.metadata ∧
        ∃ pre suf, pre ++ ch.content ++ suf = d.content) ∧
    (∀ d ∈ documents, List.Chain' ChunkOverlap (split_text d.content)) := by
  constructor
  · intro ch hch
    obtain ⟨d, hd, hmap⟩ := List.mem_flatMap.mp hch
    obtain ⟨t, ht, rfl⟩ := List.mem_map.mp hmap
    exact ⟨split_text_length_le d.content t ht, d, hd, rfl,
      split_text_slice d.content t ht⟩
  · intro d _
    exact split_text_chain d.content

/-- Witness for C8: the single chunk of the short document is a bounded slice
carrying its metadata, and the 1200-character document's chunk sequence
satisfies the 200-character overlap chain. -/
theorem C8_witness :
    ((⟨['h', 'i'], [("title", "short")]⟩ : Doc).content.length ≤ 1000 ∧
      ∃ d ∈ [docShort], (⟨['h', 'i'], [("title", "short")]⟩ : Doc).metadata = d.metadata ∧
        ∃ pre suf, pre ++ (⟨['h', 'i'], [("title", "short")]⟩ : Doc).content ++ suf =
          d.content) ∧
    List.Chain' ChunkOverlap (split_text docLong.content) := by
  refine ⟨(C8_chunker [docShort]).1 ⟨['h', 'i'], [("title", "short")]⟩
    (by
      have hsp : split_text ['h', 'i'] = [['h', 'i']] := by
        rw [split_text, if_pos (by norm_num), if_neg (by decide)]
      simp [chunk_documents, docShort, hsp]), ?_⟩
  exact (C8_chunker [docLong]).2 docLong (List.mem_singleton.mpr rfl)

/-- C9: the interactive loop of `run_interactive_mode` as a state machine over
a finite input stream: an input whose stripped, lowercased form is `quit` or
`q` immediately reaches the terminal exit (ignoring any further input and
never calling the answerer again), exhausting the input stream also terminates
the loop, and a blank input re-prompts — the run over the remaining inputs is
unchanged, so the answerer is not invoked for it and the machine stays
awaiting input. -/
theorem C9_interactive_loop (ans : List Char → Option (List Char)) :
    (∀ q rest, (pyLower (pyStrip q) = "quit".toList ∨ pyLower (pyStrip q) = "q".toList) →
      run_interactive_mode ans (q :: rest) = ([], LoopExit.quitCmd)) ∧
    run_interactive_mode ans [] = ([], LoopExit.endOfInput) ∧
    (∀ q rest, pyStrip q = [] →
      run_interactive_mode ans (q :: rest) = run_interactive_mode ans rest) := by
  refine ⟨?_, rfl, ?_⟩
  · intro q rest h
    rw [run_interactive_mode]
    simp only [h, if_pos]
  · intro q rest h
    have hq : ¬(pyLower (pyStrip q) = "quit".toList ∨ pyLower (pyStrip q) = "q".toList) := by
      rw [h]
      decide
    rw [run_interactive_mode]
    simp only [hq, if_neg, not_false_iff, h]
    rfl

/-- Witness for C9: `" QUIT "` exits at once, the empty stream ends the loop,
and the blank line `" \t"` leaves the run over the remaining input unchanged. -/
theorem C9_witness :
    run_interactive_mode ansEcho [[' ', 'Q', 'U', 'I', 'T', ' ']] =
      ([], LoopExit.quitCmd) ∧
    run_interactive_mode ansEcho [] = ([], LoopExit.endOfInput) ∧
    run_interactive_mode ansEcho ([' ', '\t'] :: [['q']]) =
      run_interactive_mode ansEcho [['q']] := by
  have h := C9_interactive_loop ansEcho
  exact ⟨h.1 [' ', 'Q', 'U', 'I', 'T', ' '] [] (by decide), h.2.1,
    h.2.2 [' ', '\t'] [['q']] (by decide)⟩

end GenAI

